import Mathlib

/-!
Verification of the vsingest directory-structure aggregation engine
(`src/extension.js`): the classifier `isTextFile` (with Node `path.extname`
semantics), the HTML escaper, the scan `DirectoryStructureProvider.generateStructure`
(filtering, per-file read+stat with local error recovery, summary accumulation,
tree building and rendering) and the `formatSize` helper.

Modelling conventions:
- Paths handed to the scan are the workspace-relative path strings (the JS code
  obtains them as `path.relative(workspaceRoot, file.fsPath)`; the external
  enumerator and `path.relative` are the environment's business, so discovered
  paths are modelled directly as relative strings with `/` as the separator).
- The filesystem is an environment `String → FileInfo` giving every path the
  outcome of `fs.readFile` (content or error message) and `fs.stat` (size or
  error message).
- JS numbers are modelled as `Nat` (all arithmetic performed by the code on the
  relevant ranges is exact); a JS string's `length` is the length of the model
  string's character list (JS counts UTF-16 code units; the two agree off the
  astral planes); `Math.ceil (len / 16)` is `(len + 15) / 16`;
  the exact rational `bytes / 1024 ^ k` in `formatSize` is represented by the
  pair `(bytes, k)` and `toFixed(2)` by round-half-up of `bytes * 100 / 1024 ^ k`
  (ECMA `toFixed` picks the closer integer and the larger one on ties).
- A JS plain object used as a string-keyed map is modelled by `JsObj`, an
  ordered association structure kept in JS own-property enumeration order:
  array-index-like keys first in ascending numeric order, then the remaining
  keys in insertion order (ECMA-262 OrdinaryOwnPropertyKeys, the order
  `Object.entries` reports).
-/

namespace VSIngest

/-! ### Basic character/string helpers -/

/-- The single-quote character, written via its code point. -/
def sq : Char := Char.ofNat 39

/-- Lowercasing as JS `toLowerCase` acts on the ASCII range (the only range
relevant to the extension comparisons performed by the code). -/
def lowerStr (s : String) : String := String.mk (s.data.map Char.toLower)

/-! ### Classifier (`isTextFile`, lines 5-24 of extension.js) -/

/-- Node `path.extname`, translated from its semantics: take the final path
segment (the part after the last `/`, ignoring trailing separators); the
extension is the substring from the last `.` to the end of the segment, except
that it is empty when the segment contains no dot, when its only leading
character is its single dot (dotfiles such as `.env`), or when the segment is
exactly `..`.  `baseRev` below is the final segment reversed. -/
def extname (p : String) : String :=
  let baseRev := List.takeWhile (fun c => c != '/') (List.dropWhile (fun c => c == '/') p.data.reverse)
  let afterRev := List.takeWhile (fun c => c != '.') baseRev
  match List.dropWhile (fun c => c != '.') baseRev with
  | [] => ""
  | [_] => ""
  | _ => if baseRev = ['.', '.'] then "" else String.mk ('.' :: afterRev.reverse)

/-- The fixed allow-list `textFileExtensions` from the source. -/
def textFileExtensions : List String :=
  [".js", ".jsx", ".ts", ".tsx", ".py", ".java", ".c", ".cpp", ".cs", ".go", ".rb", ".php",
   ".html", ".css", ".scss", ".sass", ".less", ".vue", ".svelte",
   ".json", ".xml", ".yaml", ".yml", ".toml", ".ini", ".env",
   ".md", ".txt", ".rst", ".tex",
   ".config", ".conf", ".cfg",
   ".sh", ".bash", ".zsh", ".fish",
   ".csv", ".sql", ".graphql", ".prisma"]

/-- `isTextFile(filePath)`: membership of the lowercased `path.extname` in the
fixed allow-list. -/
def isTextFile (filePath : String) : Bool :=
  textFileExtensions.contains (lowerStr (extname filePath))

/-! ### HTML escaping (`escapeHtml`, lines 76-83) -/

/-- One global single-character replacement, the effect of
`String.prototype.replace` with a one-character global regex. -/
def replaceAll (t : Char) (r : List Char) : List Char → List Char
  | [] => []
  | c :: rest => (if c = t then r else [c]) ++ replaceAll t r rest

def ampEntity : List Char := ['&', 'a', 'm', 'p', ';']

def ltEntity : List Char := ['&', 'l', 't', ';']

def gtEntity : List Char := ['&', 'g', 't', ';']

def quotEntity : List Char := ['&', 'q', 'u', 'o', 't', ';']

def aposEntity : List Char := ['&', '#', '0', '3', '9', ';']

/-- The source's five sequential global replacements, ampersand first, then
`<`, `>`, double quote, single quote, on the character list. -/
def escapeHtmlData (l : List Char) : List Char :=
  replaceAll sq aposEntity
    (replaceAll '"' quotEntity
      (replaceAll '>' gtEntity
        (replaceAll '<' ltEntity
          (replaceAll '&' ampEntity l))))

/-- `escapeHtml`: the five sequential replacements applied to the string. -/
def escapeHtml (s : String) : String :=
  String.mk (escapeHtmlData s.data)

/-- Per-character entity form: what a single pass that escapes every special
character exactly once produces for one character. -/
def escapeChar (c : Char) : List Char :=
  if c = '&' then ampEntity
  else if c = '<' then ltEntity
  else if c = '>' then gtEntity
  else if c = '"' then quotEntity
  else if c = sq then aposEntity
  else [c]

/-- The single-pass escaper: each character replaced by its entity form exactly
once. -/
def escapeAll : List Char → List Char
  | [] => []
  | c :: rest => escapeChar c ++ escapeAll rest

/-- Entity decoder for the five entities produced by `escapeHtml` (leftmost
entity decoded first, other characters copied verbatim). -/
def unescapeChars : List Char → List Char
  | [] => []
  | c :: rest =>
    if c = '&' then
      match rest with
      | 'a' :: 'm' :: 'p' :: ';' :: r => '&' :: unescapeChars r
      | 'l' :: 't' :: ';' :: r => '<' :: unescapeChars r
      | 'g' :: 't' :: ';' :: r => '>' :: unescapeChars r
      | 'q' :: 'u' :: 'o' :: 't' :: ';' :: r => '"' :: unescapeChars r
      | '#' :: '0' :: '3' :: '9' :: ';' :: r => sq :: unescapeChars r
      | r => '&' :: unescapeChars r
    else c :: unescapeChars rest

/-! ### Per-file read/stat outcomes (lines 105-125) -/

/-- Outcomes the environment assigns to one path: `fs.readFile` yields the
decoded content or throws with an error message; `fs.stat` yields a size or
throws with an error message. -/
structure FileInfo where
  readResult : Except String String
  statResult : Except String Nat

/-- The try-block of the per-file callback: `readFile` first (its error message
wins if it throws), then `stat`; success requires both. -/
def readOutcome (fi : FileInfo) : Except String (String × Nat) :=
  match fi.readResult with
  | Except.error e => Except.error e
  | Except.ok content =>
    match fi.statResult with
    | Except.error e => Except.error e
    | Except.ok size => Except.ok (content, size)

/-- `Math.ceil (n / 16)` on a natural number. -/
def ceilDiv16 (n : Nat) : Nat := (n + 15) / 16

/-- The (size, token) delta a file adds to the summary: its stat size and
`ceil(contentLength / 16)` when read and stat both succeed, nothing otherwise. -/
def fileContribution (fi : FileInfo) : Nat × Nat :=
  match readOutcome fi with
  | Except.ok cn => (cn.2, ceilDiv16 cn.1.length)
  | Except.error _ => (0, 0)

structure FileRecord where
  path : String
  content : String
deriving DecidableEq

/-- The record produced for one text file: escaped content on success, the
synthetic error string (raw, unescaped) on failure — the catch branch of the
per-file callback. -/
def fileRecord (p : String) (fi : FileInfo) : FileRecord :=
  match readOutcome fi with
  | Except.ok cn => { path := p, content := escapeHtml cn.1 }
  | Except.error msg => { path := p, content := "Error reading file: " ++ msg }

structure SummaryInfo where
  fileCount : Nat
  totalSize : Nat
  estimatedTokens : Nat
deriving DecidableEq

/-- The scan's result object `{ structure, summary, contents }` (field
`structure` is named `structureText` because `structure` is a Lean keyword). -/
structure ScanResult where
  structureText : String
  summary : SummaryInfo
  contents : List FileRecord
deriving DecidableEq

/-- The `+=` accumulation of per-file deltas into `(totalSize, estimatedTokens)`,
folded in the order the concurrent reads complete. -/
def accumulate (deltas : List (Nat × Nat)) : Nat × Nat :=
  List.foldl (fun acc d => (acc.1 + d.1, acc.2 + d.2)) (0, 0) deltas

/-! ### The directory tree (lines 130-141, 150-165)

A JS plain object used as a nested string-keyed map.  `JsObj.cons k v r` is the
entry for key `k` with value `v` followed by the remaining entries `r`, kept in
JS own-property enumeration order (array-index-like keys first, ascending
numerically, then other keys in insertion order), which is the order
`Object.entries` reports in `printTree`. -/

inductive JsObj where
  | nil : JsObj
  | cons : String → JsObj → JsObj → JsObj
deriving DecidableEq

def JsObj.hasKey (p : String) : JsObj → Bool
  | JsObj.nil => false
  | JsObj.cons k _ r => (k == p) || JsObj.hasKey p r

/-- Replace the value at key `p` (if present) by `f` of it. -/
def JsObj.mapVal (p : String) (f : JsObj → JsObj) : JsObj → JsObj
  | JsObj.nil => JsObj.nil
  | JsObj.cons k v r =>
    if k = p then JsObj.cons k (f v) r else JsObj.cons k v (JsObj.mapVal p f r)

/-- Append a new entry at the end (how a new non-index property joins the
enumeration order). -/
def JsObj.snoc (p : String) (c : JsObj) : JsObj → JsObj
  | JsObj.nil => JsObj.cons p c JsObj.nil
  | JsObj.cons k v r => JsObj.cons k v (JsObj.snoc p c r)

/-- Numeric value of a digit string. -/
def jsDigitsVal (l : List Char) : Nat :=
  List.foldl (fun a c => a * 10 + (c.toNat - 48)) 0 l

/-- ECMA-262 array index: a canonical numeric string (digits only, no leading
zero except `"0"` itself) whose value is below `2^32 - 1`.  Such own-property
keys enumerate before all other string keys, in ascending numeric order. -/
def isArrayIndexKey (s : String) : Bool :=
  match s.data with
  | [] => false
  | c :: rest =>
    (c :: rest).all Char.isDigit
      && ((c != '0') || rest.isEmpty)
      && decide (jsDigitsVal (c :: rest) < 4294967295)

/-- Place a new array-index key among the existing index-key prefix, in
ascending numeric order. -/
def insertIndexKey (p : String) (child : JsObj) : JsObj → JsObj
  | JsObj.nil => JsObj.cons p child JsObj.nil
  | JsObj.cons k v r =>
    if isArrayIndexKey k && decide (jsDigitsVal k.data < jsDigitsVal p.data)
    then JsObj.cons k v (insertIndexKey p child r)
    else JsObj.cons p child (JsObj.cons k v r)

/-- Property creation `current[part] = {}` in own-property enumeration order:
an array-index key joins the sorted index prefix, any other key is appended. -/
def insertOwnKey (p : String) (child : JsObj) (o : JsObj) : JsObj :=
  if isArrayIndexKey p then insertIndexKey p child o else JsObj.snoc p child o

/-- One `parts.forEach` walk of the tree-building loop: descend through
existing keys, create missing ones. -/
def insertPath : List String → JsObj → JsObj
  | [], o => o
  | p :: rest, o =>
    if JsObj.hasKey p o then JsObj.mapVal p (fun v => insertPath rest v) o
    else insertOwnKey p (insertPath rest JsObj.nil) o

/-- JS `String.prototype.split` with the one-character separator `path.sep`
(`/` in this model): the segments between separator occurrences, empty
segments preserved, `[""]` for the empty string. -/
def splitSepAux : List Char → List Char → List String
  | [], acc => [String.mk acc.reverse]
  | c :: rest, acc =>
    if c = '/' then String.mk acc.reverse :: splitSepAux rest []
    else splitSepAux rest (c :: acc)

def splitPath (s : String) : List String := splitSepAux s.data []

/-- The `files.forEach` loop building `tree` from every discovered path
(unfiltered), splitting on the path separator. -/
def buildTree (files : List String) : JsObj :=
  List.foldl (fun t f => insertPath (splitPath f) t) JsObj.nil files

def JsObj.isEmpty : JsObj → Bool
  | JsObj.nil => true
  | JsObj.cons _ _ _ => false

/-- `printTree`: one line per entry — prefix, branch marker (`└── ` for the
positionally last entry, `├── ` otherwise), the key with a trailing `/` iff the
value has children — then the recursive rendering of a directory's children
with the extended prefix, then the remaining siblings. -/
def printEntries : JsObj → String → String
  | JsObj.nil, _ => ""
  | JsObj.cons k v r, pre =>
      (pre ++ (if r.isEmpty then "└── " else "├── ")
        ++ (if v.isEmpty then k else k ++ "/") ++ "\n")
      ++ (if v.isEmpty then "" else printEntries v (pre ++ (if r.isEmpty then "    " else "│   ")))
      ++ printEntries r pre

def printTree (t : JsObj) (pre : String) : String := printEntries t pre

/-! ### formatSize (lines 168-179) -/

/-- The `while (size >= 1024 && unitIndex < units.length - 1)` loop.  The
current float `size` is exactly `bytes / 1024 ^ k`, so the guard
`size >= 1024` is `1024 ^ (k+1) <= bytes`; `limit` counts the remaining
iterations allowed by `unitIndex < 3` (it is `3 - k`). -/
def sizeLoopAux : Nat → Nat → Nat → Nat
  | 0, _, k => k
  | limit + 1, bytes, k =>
    if 1024 ^ (k + 1) ≤ bytes then sizeLoopAux limit bytes (k + 1) else k

/-- Two-digit rendering of the fractional part produced by `toFixed(2)`. -/
def pad2 (n : Nat) : String := if n < 10 then "0" ++ toString n else toString n

def unitName : Nat → String
  | 0 => "B"
  | 1 => "KB"
  | 2 => "MB"
  | _ => "GB"

/-- `formatSize`: divide by 1024 while the value is at least 1024 and a larger
unit remains, then render with two decimals.  With `size = bytes / 1024 ^ k`
exactly, `toFixed(2)` renders `n / 100 ++ "." ++ n % 100` where `n` is the
round-half-up of `bytes * 100 / 1024 ^ k` (ECMA `toFixed` picks the nearer
integer, the larger on ties). -/
def formatSize (bytes : Nat) : String :=
  let k := sizeLoopAux 3 bytes 0
  let scale := 1024 ^ k
  let n := (2 * (bytes * 100) + scale) / (2 * scale)
  toString (n / 100) ++ "." ++ pad2 (n % 100) ++ " " ++ unitName k

/-! ### The scan (`generateStructure`, lines 85-148) -/

/-- `generateStructure`: short-circuit when no workspace folder is open;
otherwise filter the discovered paths with `isTextFile`, set `fileCount` from
the filtered list, read and stat each text file (each failure recovered locally
into an error record contributing nothing), accumulate the summary totals,
build the tree from the full unfiltered list and render it under the root
label.  `env` is the filesystem; `rootName` is `path.basename` of the
workspace root. -/
def generateStructure (hasWorkspaceFolders : Bool) (rootName : String)
    (files : List String) (env : String → FileInfo) : ScanResult :=
  if hasWorkspaceFolders then
    let textFiles := files.filter (fun f => isTextFile f)
    let totals := accumulate (textFiles.map (fun f => fileContribution (env f)))
    { structureText := rootName ++ "/\n" ++ printTree (buildTree files) "   "
      summary :=
        { fileCount := textFiles.length
          totalSize := totals.1
          estimatedTokens := totals.2 }
      contents := textFiles.map (fun f => fileRecord f (env f)) }
  else
    { structureText := "No workspace folder open"
      summary := { fileCount := 0, totalSize := 0, estimatedTokens := 0 }
      contents := [] }

/-! ### Claim-side helper definitions -/

/-- Whether both the read and the stat of a file succeeded. -/
def readAndStatOk (fi : FileInfo) : Bool :=
  match readOutcome fi with
  | Except.ok _ => true
  | Except.error _ => false

/-- The stat size of a file, zero when stat failed. -/
def statSizeOrZero (fi : FileInfo) : Nat :=
  match fi.statResult with
  | Except.ok n => n
  | Except.error _ => 0

/-- The content length of a file, zero when the read failed. -/
def contentLengthOrZero (fi : FileInfo) : Nat :=
  match fi.readResult with
  | Except.ok c => c.length
  | Except.error _ => 0

/-- Modelled from the claim wording for the classifier: take the substring
after the last `.` in the final path segment, lowercase it, prefix it with
`.`, and test membership in the allow-list; a final segment with no dot is
non-text.  (Under this rule the dotfile `.env` is text.) -/
def claimFinalExtensionRule (p : String) : Bool :=
  let segRev := List.takeWhile (fun c => c != '/') p.data.reverse
  if List.all segRev (fun c => c != '.') then false
  else textFileExtensions.contains
    (lowerStr (String.mk ('.' :: (List.takeWhile (fun c => c != '.') segRev).reverse)))

/-- Modelled from the spec: tree building in pure insertion order — "insertion
order of siblings follows the order files were discovered; no sorting is
applied" — every newly created key is appended at the end of its level. -/
def insertPathIns : List String → JsObj → JsObj
  | [], o => o
  | p :: rest, o =>
    if JsObj.hasKey p o then JsObj.mapVal p (fun v => insertPathIns rest v) o
    else JsObj.snoc p (insertPathIns rest JsObj.nil) o

/-- Modelled from the spec: `buildTree` with pure insertion-order sibling
placement. -/
def buildTreeIns (files : List String) : JsObj :=
  List.foldl (fun t f => insertPathIns (splitPath f) t) JsObj.nil files

/-! ### Helper lemmas -/

theorem accumulate_spec (l : List (Nat × Nat)) :
    accumulate l = ((l.map Prod.fst).sum, (l.map Prod.snd).sum) := by
  have aux : ∀ (l : List (Nat × Nat)) (p : Nat × Nat),
      List.foldl (fun acc d => (acc.1 + d.1, acc.2 + d.2)) p l
        = (p.1 + (l.map Prod.fst).sum, p.2 + (l.map Prod.snd).sum) := by
    intro l
    induction l with
    | nil => intro p; simp
    | cons d rest ih =>
      intro p
      simp only [List.foldl_cons, ih, List.map_cons, List.sum_cons, Prod.mk.injEq]
      omega
  simpa using aux l (0, 0)

theorem sum_filter_map_eq {α : Type} (l : List α) (p : α → Bool) (g : α → Nat) :
    (((l.filter p).map g).sum = (l.map (fun x => if p x then g x else 0)).sum) := by
  induction l with
  | nil => rfl
  | cons a rest ih =>
    by_cases h : p a = true
    · simp [List.filter_cons, h, ih]
    · simp [List.filter_cons, h, ih]

theorem fileContribution_fst (fi : FileInfo) :
    (fileContribution fi).1 = if readAndStatOk fi then statSizeOrZero fi else 0 := by
  cases hr : fi.readResult with
  | error e => simp [fileContribution, readOutcome, readAndStatOk, hr]
  | ok c =>
    cases hs : fi.statResult with
    | error e => simp [fileContribution, readOutcome, readAndStatOk, hr, hs]
    | ok n => simp [fileContribution, readOutcome, readAndStatOk, statSizeOrZero, hr, hs]

theorem fileContribution_snd (fi : FileInfo) :
    (fileContribution fi).2
      = if readAndStatOk fi then ceilDiv16 (contentLengthOrZero fi) else 0 := by
  cases hr : fi.readResult with
  | error e => simp [fileContribution, readOutcome, readAndStatOk, hr]
  | ok c =>
    cases hs : fi.statResult with
    | error e => simp [fileContribution, readOutcome, readAndStatOk, hr, hs]
    | ok n => simp [fileContribution, readOutcome, readAndStatOk, contentLengthOrZero, hr, hs]

theorem fileRecord_path (p : String) (fi : FileInfo) : (fileRecord p fi).path = p := by
  cases h : readOutcome fi with
  | ok cn => simp [fileRecord, h]
  | error msg => simp [fileRecord, h]

theorem replaceAll_append (t : Char) (r : List Char) (l1 l2 : List Char) :
    replaceAll t r (l1 ++ l2) = replaceAll t r l1 ++ replaceAll t r l2 := by
  induction l1 with
  | nil => rfl
  | cons c rest ih => simp [replaceAll, ih]

theorem escapeHtmlData_append (l1 l2 : List Char) :
    escapeHtmlData (l1 ++ l2) = escapeHtmlData l1 ++ escapeHtmlData l2 := by
  simp [escapeHtmlData, replaceAll_append]

theorem escapeHtmlData_single (c : Char) : escapeHtmlData [c] = escapeChar c := by
  by_cases h1 : c = '&'
  · subst h1; decide
  by_cases h2 : c = '<'
  · subst h2; decide
  by_cases h3 : c = '>'
  · subst h3; decide
  by_cases h4 : c = '"'
  · subst h4; decide
  by_cases h5 : c = sq
  · subst h5; decide
  simp [escapeHtmlData, replaceAll, escapeChar, h1, h2, h3, h4, h5]

/-- The five-pass escaper is the single pass that maps every character to its
entity form exactly once (so nothing is double-escaped). -/
theorem escapeHtmlData_eq_escapeAll (l : List Char) :
    escapeHtmlData l = escapeAll l := by
  induction l with
  | nil => rfl
  | cons c rest ih =>
    have : (c :: rest) = [c] ++ rest := rfl
    rw [this, escapeHtmlData_append, escapeHtmlData_single, ih]
    rfl

set_option maxHeartbeats 1000000 in
theorem unescape_cons_ne (c : Char) (l : List Char) (h : ¬ c = '&') :
    unescapeChars (c :: l) = c :: unescapeChars l := by
  rw [unescapeChars.eq_def]
  simp [h]

theorem unescape_amp (l : List Char) :
    unescapeChars ('&' :: 'a' :: 'm' :: 'p' :: ';' :: l) = '&' :: unescapeChars l := rfl

theorem unescape_lt (l : List Char) :
    unescapeChars ('&' :: 'l' :: 't' :: ';' :: l) = '<' :: unescapeChars l := rfl

theorem unescape_gt (l : List Char) :
    unescapeChars ('&' :: 'g' :: 't' :: ';' :: l) = '>' :: unescapeChars l := rfl

theorem unescape_quot (l : List Char) :
    unescapeChars ('&' :: 'q' :: 'u' :: 'o' :: 't' :: ';' :: l) = '"' :: unescapeChars l := rfl

theorem unescape_apos (l : List Char) :
    unescapeChars ('&' :: '#' :: '0' :: '3' :: '9' :: ';' :: l) = sq :: unescapeChars l := rfl

/-- Decoding inverts the single-pass escaper on every input. -/
theorem unescape_escapeAll (l : List Char) : unescapeChars (escapeAll l) = l := by
  induction l with
  | nil => rfl
  | cons c rest ih =>
    by_cases h1 : c = '&'
    · subst h1
      have h : escapeAll ('&' :: rest) = '&' :: 'a' :: 'm' :: 'p' :: ';' :: escapeAll rest := rfl
      rw [h, unescape_amp, ih]
    by_cases h2 : c = '<'
    · subst h2
      have h : escapeAll ('<' :: rest) = '&' :: 'l' :: 't' :: ';' :: escapeAll rest := rfl
      rw [h, unescape_lt, ih]
    by_cases h3 : c = '>'
    · subst h3
      have h : escapeAll ('>' :: rest) = '&' :: 'g' :: 't' :: ';' :: escapeAll rest := rfl
      rw [h, unescape_gt, ih]
    by_cases h4 : c = '"'
    · subst h4
      have h : escapeAll ('"' :: rest) = '&' :: 'q' :: 'u' :: 'o' :: 't' :: ';' :: escapeAll rest := rfl
      rw [h, unescape_quot, ih]
    by_cases h5 : c = sq
    · subst h5
      have h : escapeAll (sq :: rest) = '&' :: '#' :: '0' :: '3' :: '9' :: ';' :: escapeAll rest := by
        show escapeChar sq ++ escapeAll rest = _
        rw [show escapeChar sq = aposEntity from by decide]
        rfl
      rw [h, unescape_apos, ih]
    have h : escapeAll (c :: rest) = c :: escapeAll rest := by
      simp [escapeAll, escapeChar, h1, h2, h3, h4, h5]
    rw [h, unescape_cons_ne c _ h1, ih]

theorem escapeChar_length_pos (c : Char) : 1 ≤ (escapeChar c).length := by
  unfold escapeChar
  split_ifs <;> simp [ampEntity, ltEntity, gtEntity, quotEntity, aposEntity]

theorem length_le_escapeAll (l : List Char) : l.length ≤ (escapeAll l).length := by
  induction l with
  | nil => simp
  | cons c rest ih =>
    have := escapeChar_length_pos c
    simp only [escapeAll, List.length_append, List.length_cons]
    omega

theorem length_lt_escapeAll_of_amp (l : List Char) (h : '&' ∈ l) :
    l.length < (escapeAll l).length := by
  induction l with
  | nil => cases h
  | cons c rest ih =>
    rcases List.mem_cons.mp h with hc | hrest
    · subst hc
      have h5 : escapeChar '&' = ampEntity := rfl
      have := length_le_escapeAll rest
      simp only [escapeAll, h5, List.length_append, List.length_cons, ampEntity]
      simp
      omega
    · have := escapeChar_length_pos c
      have hr := ih hrest
      simp only [escapeAll, List.length_append, List.length_cons]
      omega

/-- A string containing an ampersand is changed by `escapeHtml`; storing it
verbatim is observably different from storing its escaped form. -/
theorem ne_escapeHtml_of_amp (s : String) (h : '&' ∈ s.data) : s ≠ escapeHtml s := by
  intro he
  have hd : s.data = (escapeHtml s).data := congrArg String.data he
  have hesc : (escapeHtml s).data = escapeAll s.data := escapeHtmlData_eq_escapeAll s.data
  have h2 : s.data = escapeAll s.data := hd.trans hesc
  have hlt := length_lt_escapeAll_of_amp s.data h
  rw [← h2] at hlt
  exact lt_irrefl _ hlt

/-! ### Claim theorems -/

/-- Claim C2: after a scan, `summary.fileCount` equals the number of discovered
paths classified as text by `isTextFile`, whatever the reads and stats do. -/
theorem claim_c2_fileCount (rootName : String) (files : List String)
    (env : String → FileInfo) :
    (generateStructure true rootName files env).summary.fileCount
      = files.countP (fun f => isTextFile f) := by
  simp only [generateStructure, if_true, List.countP_eq_length_filter]

/-- Claim C1: after a scan, `summary.totalSize` is the sum of the stat sizes of
exactly the text-classified files whose read and stat both succeeded, and
`summary.estimatedTokens` is the sum of `ceil(contentLength/16)` over the same
files; failing files contribute zero, and folding the per-file `(size, tokens)`
deltas in any completion order yields the same totals. -/
theorem claim_c1_totals (rootName : String) (files : List String)
    (env : String → FileInfo) :
    (generateStructure true rootName files env).summary.totalSize
        = (((files.filter (fun f => isTextFile f)).filter
              (fun f => readAndStatOk (env f))).map
            (fun f => statSizeOrZero (env f))).sum
    ∧ (generateStructure true rootName files env).summary.estimatedTokens
        = (((files.filter (fun f => isTextFile f)).filter
              (fun f => readAndStatOk (env f))).map
            (fun f => ceilDiv16 (contentLengthOrZero (env f)))).sum
    ∧ ∀ order : List (Nat × Nat),
        order.Perm ((files.filter (fun f => isTextFile f)).map
          (fun f => fileContribution (env f))) →
        accumulate order
          = ((generateStructure true rootName files env).summary.totalSize,
             (generateStructure true rootName files env).summary.estimatedTokens) := by
  have hS : (generateStructure true rootName files env).summary.totalSize
      = (((files.filter (fun f => isTextFile f)).map
            (fun f => fileContribution (env f))).map Prod.fst).sum := by
    simp only [generateStructure, if_true, accumulate_spec]
  have hT : (generateStructure true rootName files env).summary.estimatedTokens
      = (((files.filter (fun f => isTextFile f)).map
            (fun f => fileContribution (env f))).map Prod.snd).sum := by
    simp only [generateStructure, if_true, accumulate_spec]
  refine ⟨?_, ?_, ?_⟩
  · rw [hS, List.map_map,
      sum_filter_map_eq files (fun f => isTextFile f)
        (Prod.fst ∘ fun f => fileContribution (env f)),
      sum_filter_map_eq (files.filter (fun f => isTextFile f))
        (fun f => readAndStatOk (env f)) (fun f => statSizeOrZero (env f)),
      sum_filter_map_eq files (fun f => isTextFile f)
        (fun x => if readAndStatOk (env x) then statSizeOrZero (env x) else 0)]
    simp only [Function.comp_def, fileContribution_fst]
  · rw [hT, List.map_map,
      sum_filter_map_eq files (fun f => isTextFile f)
        (Prod.snd ∘ fun f => fileContribution (env f)),
      sum_filter_map_eq (files.filter (fun f => isTextFile f))
        (fun f => readAndStatOk (env f))
        (fun f => ceilDiv16 (contentLengthOrZero (env f))),
      sum_filter_map_eq files (fun f => isTextFile f)
        (fun x => if readAndStatOk (env x) then ceilDiv16 (contentLengthOrZero (env x)) else 0)]
    simp only [Function.comp_def, fileContribution_snd]
  · intro order hp
    rw [accumulate_spec, hS, hT]
    exact Prod.ext ((hp.map Prod.fst).sum_eq) ((hp.map Prod.snd).sum_eq)

/-- Witness for C1: a concrete two-file scan, with the completion order
reversed relative to discovery order, still reaches the recorded totals. -/
theorem claim_c1_totals_witness :
    accumulate [(5, 1), (3, 1)]
      = ((generateStructure true "r" ["b.txt", "a.md"]
            (fun p => if p = "a.md" then ⟨Except.ok "hello", Except.ok 5⟩
                      else ⟨Except.ok "abc", Except.ok 3⟩)).summary.totalSize,
         (generateStructure true "r" ["b.txt", "a.md"]
            (fun p => if p = "a.md" then ⟨Except.ok "hello", Except.ok 5⟩
                      else ⟨Except.ok "abc", Except.ok 3⟩)).summary.estimatedTokens) :=
  (claim_c1_totals "r" ["b.txt", "a.md"]
      (fun p => if p = "a.md" then ⟨Except.ok "hello", Except.ok 5⟩
                else ⟨Except.ok "abc", Except.ok 3⟩)).2.2
    [(5, 1), (3, 1)] (by decide)

/-- Claim C3: a text-classified file whose read or stat fails still yields a
record in `contents` whose content is the synthetic error string, contributes
`(0, 0)` to the totals (which remain the sums of the per-file contributions of
every text file), is still counted by `fileCount`, and every other text file
is still processed (contents is exactly the map over all text files). -/
theorem claim_c3_per_file_failure (rootName : String) (files : List String)
    (env : String → FileInfo) (f msg : String)
    (hf : f ∈ files) (ht : isTextFile f = true)
    (he : readOutcome (env f) = Except.error msg) :
    FileRecord.mk f ("Error reading file: " ++ msg)
        ∈ (generateStructure true rootName files env).contents
    ∧ fileContribution (env f) = (0, 0)
    ∧ (generateStructure true rootName files env).summary.totalSize
        = ((files.filter (fun g => isTextFile g)).map
            (fun g => (fileContribution (env g)).1)).sum
    ∧ (generateStructure true rootName files env).summary.estimatedTokens
        = ((files.filter (fun g => isTextFile g)).map
            (fun g => (fileContribution (env g)).2)).sum
    ∧ (generateStructure true rootName files env).summary.fileCount
        = (files.filter (fun g => isTextFile g)).length
    ∧ f ∈ files.filter (fun g => isTextFile g)
    ∧ (generateStructure true rootName files env).contents
        = (files.filter (fun g => isTextFile g)).map (fun g => fileRecord g (env g)) := by
  have hmem : f ∈ files.filter (fun g => isTextFile g) := List.mem_filter.mpr ⟨hf, ht⟩
  have hrec : fileRecord f (env f) = FileRecord.mk f ("Error reading file: " ++ msg) := by
    simp [fileRecord, he]
  have hcontents : (generateStructure true rootName files env).contents
      = (files.filter (fun g => isTextFile g)).map (fun g => fileRecord g (env g)) := by
    simp only [generateStructure, if_true]
  refine ⟨?_, ?_, ?_, ?_, ?_, hmem, hcontents⟩
  · rw [hcontents, ← hrec]
    exact List.mem_map_of_mem _ hmem
  · simp [fileContribution, he]
  · simp only [generateStructure, if_true, accumulate_spec, List.map_map]
    simp only [Function.comp_def]
  · simp only [generateStructure, if_true, accumulate_spec, List.map_map]
    simp only [Function.comp_def]
  · simp only [generateStructure, if_true]

/-- Witness for C3: a one-file scan whose only file fails to read. -/
theorem claim_c3_per_file_failure_witness :
    FileRecord.mk "x.md" ("Error reading file: " ++ "boom")
        ∈ (generateStructure true "r" ["x.md"]
            (fun _ => ⟨Except.error "boom", Except.ok 7⟩)).contents
    ∧ fileContribution ⟨Except.error "boom", Except.ok 7⟩ = (0, 0)
    ∧ (generateStructure true "r" ["x.md"]
        (fun _ => ⟨Except.error "boom", Except.ok 7⟩)).summary.fileCount
        = (["x.md"].filter (fun g => isTextFile g)).length :=
  have h := claim_c3_per_file_failure "r" ["x.md"]
    (fun _ => ⟨Except.error "boom", Except.ok 7⟩) "x.md" "boom"
    (by decide) (by decide) rfl
  ⟨h.1, h.2.1, h.2.2.2.2.1⟩

/-- Claim C6: a successfully read (and statted) file is stored with its content
escaped by `escapeHtml`; that escaping replaces each special character by its
entity form exactly once (it equals the single-pass escaper, so nothing is
double-escaped), and entity-decoding the stored content restores the original
text exactly. -/
theorem claim_c6_escaping_round_trip (rootName : String) (files : List String)
    (env : String → FileInfo) (f c : String) (n : Nat)
    (hf : f ∈ files) (ht : isTextFile f = true)
    (hr : readOutcome (env f) = Except.ok (c, n)) :
    FileRecord.mk f (escapeHtml c) ∈ (generateStructure true rootName files env).contents
    ∧ (escapeHtml c).data = escapeAll c.data
    ∧ unescapeChars (escapeHtml c).data = c.data := by
  have hmem : f ∈ files.filter (fun g => isTextFile g) := List.mem_filter.mpr ⟨hf, ht⟩
  have hrec : fileRecord f (env f) = FileRecord.mk f (escapeHtml c) := by
    simp [fileRecord, hr]
  have hdata : (escapeHtml c).data = escapeAll c.data := escapeHtmlData_eq_escapeAll c.data
  refine ⟨?_, hdata, ?_⟩
  · simp only [generateStructure, if_true]
    rw [← hrec]
    exact List.mem_map_of_mem _ hmem
  · rw [hdata]
    exact unescape_escapeAll c.data

/-- Witness for C6: a file whose content holds every special character. -/
theorem claim_c6_escaping_round_trip_witness :
    FileRecord.mk "a.md" (escapeHtml (String.mk ['<', 's', '>', '&', '"']))
        ∈ (generateStructure true "r" ["a.md"]
            (fun _ => ⟨Except.ok (String.mk ['<', 's', '>', '&', '"']), Except.ok 5⟩)).contents
    ∧ unescapeChars (escapeHtml (String.mk ['<', 's', '>', '&', '"'])).data
        = ['<', 's', '>', '&', '"'] :=
  have h := claim_c6_escaping_round_trip "r" ["a.md"]
    (fun _ => ⟨Except.ok (String.mk ['<', 's', '>', '&', '"']), Except.ok 5⟩)
    "a.md" (String.mk ['<', 's', '>', '&', '"']) 5 (by decide) (by decide) rfl
  ⟨h.1, h.2.2⟩

/-- Claim C10: the error-branch record stores `"Error reading file: "` plus the
raw error message with no HTML escaping applied — when the message contains a
special character such as `&`, the stored string provably differs from what
escaping it would have produced. -/
theorem claim_c10_error_content_unescaped (rootName : String) (files : List String)
    (env : String → FileInfo) (f msg : String)
    (hf : f ∈ files) (ht : isTextFile f = true)
    (he : readOutcome (env f) = Except.error msg) :
    FileRecord.mk f ("Error reading file: " ++ msg)
        ∈ (generateStructure true rootName files env).contents
    ∧ ('&' ∈ msg.data →
        "Error reading file: " ++ msg ≠ escapeHtml ("Error reading file: " ++ msg)) := by
  have hmem : f ∈ files.filter (fun g => isTextFile g) := List.mem_filter.mpr ⟨hf, ht⟩
  have hrec : fileRecord f (env f) = FileRecord.mk f ("Error reading file: " ++ msg) := by
    simp [fileRecord, he]
  refine ⟨?_, ?_⟩
  · simp only [generateStructure, if_true]
    rw [← hrec]
    exact List.mem_map_of_mem _ hmem
  · intro hamp
    apply ne_escapeHtml_of_amp
    rw [String.data_append]
    exact List.mem_append_right _ hamp

/-- Witness for C10: the raw message `a & b` is stored verbatim and differs
from its escaped form. -/
theorem claim_c10_error_content_unescaped_witness :
    FileRecord.mk "x.md" ("Error reading file: " ++ "a & b")
        ∈ (generateStructure true "r" ["x.md"]
            (fun _ => ⟨Except.error "a & b", Except.error "a & b"⟩)).contents
    ∧ "Error reading file: " ++ "a & b"
        ≠ escapeHtml ("Error reading file: " ++ "a & b") :=
  have h := claim_c10_error_content_unescaped "r" ["x.md"]
    (fun _ => ⟨Except.error "a & b", Except.error "a & b"⟩) "x.md" "a & b"
    (by decide) (by decide) rfl
  ⟨h.1, h.2 (by decide)⟩

/-- Claim C8: with no workspace folder open, the scan returns the synthetic
result with the sentinel structure string, a zeroed summary and empty
contents, for every root label, path list and filesystem. -/
theorem claim_c8_no_workspace (rootName : String) (files : List String)
    (env : String → FileInfo) :
    generateStructure false rootName files env
      = { structureText := "No workspace folder open"
          summary := { fileCount := 0, totalSize := 0, estimatedTokens := 0 }
          contents := [] } := rfl

/-- Claim C7: in the scenario `["src/a.py", "src/b.bin", "README.md"]` (with
`b.bin` not text-classified), `fileCount` is 2, `contents` has exactly the
records for `a.py` and `README.md`, and the rendered tree still shows all
three files — `a.py` and `b.bin` under `src/`, `README.md` under the root —
because the tree is built from the unfiltered discovery list. -/
theorem claim_c7_scenario (rootName : String) (env : String → FileInfo) :
    (generateStructure true rootName ["src/a.py", "src/b.bin", "README.md"] env).summary.fileCount
        = 2
    ∧ (generateStructure true rootName ["src/a.py", "src/b.bin", "README.md"] env).contents.map
        FileRecord.path = ["src/a.py", "README.md"]
    ∧ (generateStructure true rootName ["src/a.py", "src/b.bin", "README.md"] env).structureText
        = rootName ++ "/\n"
            ++ "   ├── src/\n   │   ├── a.py\n   │   └── b.bin\n   └── README.md\n" := by
  have hfilter : (["src/a.py", "src/b.bin", "README.md"].filter (fun f => isTextFile f))
      = ["src/a.py", "README.md"] := by decide
  have htree : printTree (buildTree ["src/a.py", "src/b.bin", "README.md"]) "   "
      = "   ├── src/\n   │   ├── a.py\n   │   └── b.bin\n   └── README.md\n" := by decide
  refine ⟨rfl, ?_, ?_⟩
  · simp only [generateStructure, if_true, hfilter, List.map_cons, List.map_nil,
      List.map_map, Function.comp_def, fileRecord_path]
  · simp only [generateStructure, if_true, htree]

/-- The loop of `formatSize` never steps the unit index past 3 (`GB`). -/
theorem sizeLoopAux_le (limit : Nat) :
    ∀ (bytes k : Nat), sizeLoopAux limit bytes k ≤ k + limit := by
  induction limit with
  | zero => intro bytes k; simp [sizeLoopAux]
  | succ m ih =>
    intro bytes k
    simp only [sizeLoopAux]
    split
    · exact le_trans (ih bytes (k + 1)) (by omega)
    · omega

/-- Once the byte count reaches `1024 ^ 3` the loop runs to unit index 3. -/
theorem sizeLoopAux_gb (bytes : Nat) (h : 1024 ^ 3 ≤ bytes) :
    sizeLoopAux 3 bytes 0 = 3 := by
  have h1 : (1024 : Nat) ≤ bytes := le_trans (by norm_num) h
  have h2 : (1048576 : Nat) ≤ bytes := le_trans (by norm_num) h
  have h3 : (1073741824 : Nat) ≤ bytes := le_trans (by norm_num) h
  simp [sizeLoopAux, h1, h2, h3]

/-- Claim C9: `formatSize` steps in binary units over `B, KB, MB, GB` with two
decimal places, gives the claimed concrete renderings, never advances the unit
index past `GB`, and renders every value of at least `1024 ^ 3` bytes with
unit `GB`. -/
theorem claim_c9_formatSize :
    formatSize 0 = "0.00 B"
    ∧ formatSize 1024 = "1.00 KB"
    ∧ formatSize 1572864 = "1.50 MB"
    ∧ (∀ bytes : Nat, sizeLoopAux 3 bytes 0 ≤ 3)
    ∧ (∀ bytes : Nat, 1024 ^ 3 ≤ bytes → ∃ s : String, formatSize bytes = s ++ "GB") := by
  refine ⟨by decide, by decide, by decide, ?_, ?_⟩
  · intro bytes
    simpa using sizeLoopAux_le 3 bytes 0
  · intro bytes h
    have hk := sizeLoopAux_gb bytes h
    have hfmt : formatSize bytes
        = (toString ((2 * (bytes * 100) + 1024 ^ 3) / (2 * 1024 ^ 3) / 100) ++ "."
            ++ pad2 ((2 * (bytes * 100) + 1024 ^ 3) / (2 * 1024 ^ 3) % 100) ++ " ") ++ "GB" := by
      simp only [formatSize, hk]
      rfl
    exact ⟨_, hfmt⟩

/-- Witness for C9: one concrete value at and one above the GB threshold. -/
theorem claim_c9_formatSize_witness :
    (∃ s : String, formatSize 1073741824 = s ++ "GB")
    ∧ sizeLoopAux 3 500 0 ≤ 3 :=
  ⟨claim_c9_formatSize.2.2.2.2 1073741824 (by norm_num),
   claim_c9_formatSize.2.2.2.1 500⟩

theorem takeWhile_append_stop {α : Type} (p : α → Bool) (l1 l2 : List α) (c0 : α)
    (h1 : ∀ c ∈ l1, p c = true) (h0 : p c0 = false) :
    List.takeWhile p (l1 ++ c0 :: l2) = l1 := by
  induction l1 with
  | nil => simp [List.takeWhile_cons, h0]
  | cons a rest ih =>
    have ha : p a = true := h1 a (by simp)
    have hrest : ∀ c ∈ rest, p c = true := fun c hc => h1 c (by simp [hc])
    simp [List.takeWhile_cons, ha, ih hrest]

theorem dropWhile_append_stop {α : Type} (p : α → Bool) (l1 l2 : List α) (c0 : α)
    (h1 : ∀ c ∈ l1, p c = true) (h0 : p c0 = false) :
    List.dropWhile p (l1 ++ c0 :: l2) = c0 :: l2 := by
  induction l1 with
  | nil => simp [List.dropWhile_cons, h0]
  | cons a rest ih =>
    have ha : p a = true := h1 a (by simp)
    have hrest : ∀ c ∈ rest, p c = true := fun c hc => h1 c (by simp [hc])
    simp [List.dropWhile_cons, ha, ih hrest]

theorem dropWhile_of_head_false {α : Type} (p : α → Bool) (l1 l2 : List α)
    (hne : l1 ≠ []) (h1 : ∀ c ∈ l1, p c = false) :
    List.dropWhile p (l1 ++ l2) = l1 ++ l2 := by
  cases l1 with
  | nil => exact absurd rfl hne
  | cons a rest =>
    have ha : p a = false := h1 a (by simp)
    simp [List.dropWhile_cons, ha]

/-- `path.extname` on a path of the shape `dir / base . ext` (nonempty `base`
with no separator, nonempty `ext` with no separator and no dot) is `.ext`. -/
theorem extname_concat (d b x : List Char)
    (hb : b ≠ []) (hx : x ≠ [])
    (hbs : ∀ c ∈ b, c ≠ '/')
    (hxs : ∀ c ∈ x, c ≠ '/' ∧ c ≠ '.') :
    extname (String.mk d ++ "/" ++ String.mk b ++ "." ++ String.mk x)
      = String.mk ('.' :: x) := by
  have hxrev : x.reverse ≠ [] := by simpa using hx
  have hbrev : b.reverse ≠ [] := by simpa using hb
  have hxmem : ∀ c ∈ x.reverse, c ≠ '/' ∧ c ≠ '.' := by
    intro c hc; exact hxs c (List.mem_reverse.mp hc)
  have hbmem : ∀ c ∈ b.reverse, c ≠ '/' := by
    intro c hc; exact hbs c (List.mem_reverse.mp hc)
  have hdata : (String.mk d ++ "/" ++ String.mk b ++ "." ++ String.mk x).data
      = d ++ ['/'] ++ b ++ ['.'] ++ x := rfl
  have hrev : (d ++ ['/'] ++ b ++ ['.'] ++ x).reverse
      = (x.reverse ++ '.' :: b.reverse) ++ '/' :: d.reverse := by
    simp
  have hdrop : List.dropWhile (fun c => c == '/')
        ((x.reverse ++ '.' :: b.reverse) ++ '/' :: d.reverse)
      = (x.reverse ++ '.' :: b.reverse) ++ '/' :: d.reverse := by
    apply dropWhile_of_head_false
    · simp [hxrev]
    · intro c hc
      rcases List.mem_append.mp hc with h | h
      · simpa using (hxmem c h).1
      · rcases List.mem_cons.mp h with h | h
        · subst h; decide
        · simpa using hbmem c h
  have htake : List.takeWhile (fun c => c != '/')
        ((x.reverse ++ '.' :: b.reverse) ++ '/' :: d.reverse)
      = x.reverse ++ '.' :: b.reverse := by
    apply takeWhile_append_stop
    · intro c hc
      rcases List.mem_append.mp hc with h | h
      · simpa using (hxmem c h).1
      · rcases List.mem_cons.mp h with h | h
        · subst h; decide
        · simpa using hbmem c h
    · decide
  have hafter : List.takeWhile (fun c => c != '.') (x.reverse ++ '.' :: b.reverse)
      = x.reverse := by
    apply takeWhile_append_stop
    · intro c hc
      simpa using (hxmem c hc).2
    · decide
  have hdropdot : List.dropWhile (fun c => c != '.') (x.reverse ++ '.' :: b.reverse)
      = '.' :: b.reverse := by
    apply dropWhile_append_stop
    · intro c hc
      simpa using (hxmem c hc).2
    · decide
  have hne2 : ¬ (x.reverse ++ '.' :: b.reverse = ['.', '.']) := by
    obtain ⟨xc, xrest, hxc⟩ := List.exists_cons_of_ne_nil hxrev
    rw [hxc]
    intro hcontra
    have hxc' : xc = '.' := by
      have := congrArg (fun l => l.head?) hcontra
      simpa using this
    have : xc ∈ x.reverse := by rw [hxc]; simp
    exact (hxmem xc this).2 hxc'
  obtain ⟨bc, brest, hbc⟩ := List.exists_cons_of_ne_nil hbrev
  rw [show (String.mk d ++ "/" ++ String.mk b ++ "." ++ String.mk x)
      = String.mk (d ++ ['/'] ++ b ++ ['.'] ++ x) from rfl]
  simp only [extname]
  rw [hrev, hdrop, htake, hafter, hdropdot]
  rw [hbc] at hne2 ⊢
  show (if x.reverse ++ '.' :: (bc :: brest) = ['.', '.'] then ("" : String)
      else String.mk ('.' :: x.reverse.reverse)) = String.mk ('.' :: x)
  rw [if_neg hne2]
  simp

/-- `path.extname` on a path whose final segment is a dotfile (`.name` with no
further dot) is the empty string. -/
theorem extname_dotfile (d n : List Char)
    (hn : ∀ c ∈ n, c ≠ '/' ∧ c ≠ '.') :
    extname (String.mk d ++ "/." ++ String.mk n) = "" := by
  have hnmem : ∀ c ∈ n.reverse, c ≠ '/' ∧ c ≠ '.' := by
    intro c hc; exact hn c (List.mem_reverse.mp hc)
  have hrev : (d ++ ['/', '.'] ++ n).reverse
      = (n.reverse ++ ['.']) ++ '/' :: d.reverse := by
    simp
  have hdrop : List.dropWhile (fun c => c == '/')
        ((n.reverse ++ ['.']) ++ '/' :: d.reverse)
      = (n.reverse ++ ['.']) ++ '/' :: d.reverse := by
    apply dropWhile_of_head_false
    · simp
    · intro c hc
      rcases List.mem_append.mp hc with h | h
      · simpa using (hnmem c h).1
      · rcases List.mem_cons.mp h with h | h
        · subst h; decide
        · cases h
  have htake : List.takeWhile (fun c => c != '/')
        ((n.reverse ++ ['.']) ++ '/' :: d.reverse)
      = n.reverse ++ ['.'] := by
    apply takeWhile_append_stop
    · intro c hc
      rcases List.mem_append.mp hc with h | h
      · simpa using (hnmem c h).1
      · rcases List.mem_cons.mp h with h | h
        · subst h; decide
        · cases h
    · decide
  have hdropdot : List.dropWhile (fun c => c != '.') (n.reverse ++ ['.'])
      = ['.'] := by
    have := dropWhile_append_stop (fun c => c != '.') n.reverse ([] : List Char) '.'
      (by intro c hc; simpa using (hnmem c hc).2) (by decide)
    simpa using this
  rw [show (String.mk d ++ "/." ++ String.mk n)
      = String.mk (d ++ ['/', '.'] ++ n) from rfl]
  simp only [extname]
  rw [hrev, hdrop, htake, hdropdot]

/-- Counterexample to C4 as stated: for the dotfile `.env`, the claimed rule
(substring after the last dot of the final segment, dot-prefixed, lowercased,
tested against the allow-list) classifies it as text, but the code's
`isTextFile` — via Node `path.extname`, which is empty for `.env` — classifies
it as non-text. -/
theorem claim_c4_counterexample :
    claimFinalExtensionRule ".env" = true ∧ isTextFile ".env" = false :=
  ⟨by decide, by decide⟩

/-- Claim C4 (amended): on a path `dir/base.ext` whose final segment has a
nonempty stem before its last dot (nonempty `base` with no separator, nonempty
`ext` with no separator and no dot), `isTextFile` answers exactly membership
of the lowercased dot-prefixed extension in the allow-list; but a dotfile
final segment `.name` whose only dot is the leading one — `.env` in
particular — classifies as non-text, because `path.extname` is empty there. -/
theorem claim_c4_amended (dir base ext name : String)
    (hb : base ≠ "") (hx : ext ≠ "")
    (hbs : ∀ c ∈ base.data, c ≠ '/')
    (hxs : ∀ c ∈ ext.data, c ≠ '/' ∧ c ≠ '.')
    (hns : ∀ c ∈ name.data, c ≠ '/' ∧ c ≠ '.') :
    (isTextFile (dir ++ "/" ++ base ++ "." ++ ext)
        = textFileExtensions.contains (lowerStr ("." ++ ext)))
    ∧ isTextFile (dir ++ "/." ++ name) = false := by
  obtain ⟨d⟩ := dir
  obtain ⟨b⟩ := base
  obtain ⟨x⟩ := ext
  obtain ⟨n⟩ := name
  have hb' : b ≠ [] := by
    intro h; subst h; exact hb (by decide)
  have hx' : x ≠ [] := by
    intro h; subst h; exact hx (by decide)
  constructor
  · simp only [isTextFile]
    rw [extname_concat d b x hb' hx' hbs hxs]
    rfl
  · simp only [isTextFile]
    rw [extname_dotfile d n hns]
    decide

/-- Witness for the amended C4: `src/a.py` classifies by its `.py` extension;
the dotfile `src/.env` classifies as non-text. -/
theorem claim_c4_amended_witness :
    (isTextFile ("src" ++ "/" ++ "a" ++ "." ++ "py")
        = textFileExtensions.contains (lowerStr ("." ++ "py")))
    ∧ isTextFile ("src" ++ "/." ++ "env") = false :=
  claim_c4_amended "src" "a" "py" "env" (by decide) (by decide)
    (by decide) (by decide) (by decide)

/-- When no path segment is an array-index-like name, the JS enumeration-order
insertion coincides with pure insertion order. -/
theorem insertPath_eq_ins (ps : List String)
    (hseg : ∀ s ∈ ps, isArrayIndexKey s = false) :
    ∀ o : JsObj, insertPath ps o = insertPathIns ps o := by
  induction ps with
  | nil => intro o; rfl
  | cons p rest ih =>
    intro o
    have hp : isArrayIndexKey p = false := hseg p (by simp)
    have hrest : ∀ s ∈ rest, isArrayIndexKey s = false :=
      fun s hs => hseg s (by simp [hs])
    have hfun : (fun v => insertPath rest v) = (fun v => insertPathIns rest v) :=
      funext (ih hrest)
    simp only [insertPath, insertPathIns]
    rw [hfun, ih hrest JsObj.nil]
    simp [insertOwnKey, hp]

/-- `buildTree` agrees with the spec's insertion-order tree when no segment is
array-index-like. -/
theorem buildTree_eq_ins (files : List String)
    (h : ∀ f ∈ files, ∀ s ∈ splitPath f, isArrayIndexKey s = false) :
    buildTree files = buildTreeIns files := by
  suffices aux : ∀ (fs : List String),
      (∀ f ∈ fs, ∀ s ∈ splitPath f, isArrayIndexKey s = false) →
      ∀ o : JsObj, List.foldl (fun t f => insertPath (splitPath f) t) o fs
        = List.foldl (fun t f => insertPathIns (splitPath f) t) o fs by
    exact aux files h JsObj.nil
  intro fs
  induction fs with
  | nil => intro _ o; rfl
  | cons f rest ih =>
    intro hh o
    simp only [List.foldl_cons]
    rw [insertPath_eq_ins (splitPath f) (hh f (by simp))]
    exact ih (fun g hg s hs => hh g (by simp [hg]) s hs) _

/-- Counterexample to C5 as stated: with discovery order `["2", "1"]` (two
files named by array-index-like strings), the rendered tree lists `1` before
`2` — JS objects enumerate array-index keys in ascending numeric order — so
sibling order does not follow discovery order and differs from the
insertion-order rendering the claim prescribes. -/
theorem claim_c5_counterexample :
    (generateStructure true "root" ["2", "1"]
        (fun _ => ⟨Except.error "e", Except.error "e"⟩)).structureText
      = "root/\n   ├── 1\n   └── 2\n"
    ∧ (generateStructure true "root" ["2", "1"]
        (fun _ => ⟨Except.error "e", Except.error "e"⟩)).structureText
      ≠ "root/\n" ++ printTree (buildTreeIns ["2", "1"]) "   " :=
  ⟨by decide, by decide⟩

/-- Claim C5 (amended): sibling order at every level follows discovery
(insertion) order — and hence the rendered structure is the insertion-order
rendering — provided no path segment is an array-index-like string (a
canonical numeric name below `2^32 - 1`); such segments are enumerated first
in ascending numeric order by JS objects. -/
theorem claim_c5_amended (rootName : String) (files : List String)
    (env : String → FileInfo)
    (h : ∀ f ∈ files, ∀ s ∈ splitPath f, isArrayIndexKey s = false) :
    buildTree files = buildTreeIns files
    ∧ (generateStructure true rootName files env).structureText
        = rootName ++ "/\n" ++ printTree (buildTreeIns files) "   " := by
  have hbt : buildTree files = buildTreeIns files := buildTree_eq_ins files h
  exact ⟨hbt, by simp only [generateStructure, if_true, hbt]⟩

/-- Witness for the amended C5 at a concrete non-numeric discovery list. -/
theorem claim_c5_amended_witness :
    buildTree ["src/a.py", "README.md"] = buildTreeIns ["src/a.py", "README.md"]
    ∧ (generateStructure true "r" ["src/a.py", "README.md"]
        (fun _ => ⟨Except.error "e", Except.error "e"⟩)).structureText
        = "r" ++ "/\n" ++ printTree (buildTreeIns ["src/a.py", "README.md"]) "   " :=
  claim_c5_amended "r" ["src/a.py", "README.md"]
    (fun _ => ⟨Except.error "e", Except.error "e"⟩) (by decide)

end VSIngest
